import Mathlib

/-!
Verification of the numerical quadrature library
`src/lab1/calc_methods_integral.py`.

The module exposes three integrators over a closed interval `[a, b]`
split into `n` equal parts of width `dx = (b - a) / n`:

* `RectangleMethod` — mode-selected evaluation point per subinterval
  (`"left"`, `"right"`, `"mid"`, `"random"`), the mode being validated
  by an assertion in the constructor;
* `TrapezoidalMethod` — averaged endpoint values;
* `SimpsonMethod` — parabolic rule, which raises
  `ValueError("For the Simpson method, n must be even")` on odd `n`.

We embed the arithmetic over `ℚ` (exact real arithmetic, as the spec's
formulas are stated) and the fallible paths as `Except String`:
Python's `ZeroDivisionError` on `dx = (b - a) / n` with `n = 0`, the
`ValueError` of Simpson's parity check, and the `AssertionError` of the
rectangle constructor.  Loops `for i in range(...)` become `List.foldl`
over the corresponding index list, mirroring the accumulator `total`.
The `"random"` mode draws its point from `np.random.uniform(x0, x1)`;
the sampler is modelled as an explicit oracle argument
`u : ℕ → ℚ → ℚ → ℚ` giving the drawn point for step `i` on `[x0, x1]`.
-/

/-- Python's `ZeroDivisionError` message for float division by zero,
raised when `dx = (b - a) / n` is computed with `n = 0`. -/
def zeroDivisionErrorMsg : String := "ZeroDivisionError: float division by zero"

/-- Message of the `ValueError` raised by `SimpsonMethod.integrate`
when `n` is odd (verbatim from the source). -/
def simpsonOddMsg : String := "For the Simpson method, n must be even"

/-- Message standing for the `AssertionError` raised by
`RectangleMethod.__init__` when the mode string is invalid. -/
def assertionErrorMsg : String := "AssertionError"

/-- The rectangle integrator object: it stores the mode string set by the
constructor (`self.mode = mode`). -/
structure RectangleMethod where
  mode : String
deriving DecidableEq, Repr

/-- The tuple `('left', 'right', 'mid', 'random')` that
`RectangleMethod.__init__` asserts membership of. -/
def rectangleModes : List String := ["left", "right", "mid", "random"]

/-- `RectangleMethod.__init__(self, mode)`: `assert mode in ('left',
'right', 'mid', 'random')`, then store the mode.  The failed assertion is
an `AssertionError` at construction time. -/
def RectangleMethod.init (mode : String) : Except String RectangleMethod :=
  if mode ∈ rectangleModes then Except.ok ⟨mode⟩
  else Except.error assertionErrorMsg

/-- `RectangleMethod.integrate(self, a, b, n, f)`.  Computes
`dx = (b - a) / n` (a `ZeroDivisionError` when `n = 0`), then runs
`for i in range(n)`: `x0 = a + i * dx`, `x1 = x0 + dx`, picks the
evaluation point `xi` by the stored mode — `x0` for `"left"`, `x1` for
`"right"`, `(x0 + x1) / 2` for `"mid"`, and the uniform draw (oracle
`u i x0 x1`) otherwise — and accumulates `total += f(xi) * dx`. -/
def RectangleMethod.integrate (self : RectangleMethod) (u : ℕ → ℚ → ℚ → ℚ)
    (a b : ℚ) (n : ℕ) (f : ℚ → ℚ) : Except String ℚ :=
  if n = 0 then Except.error zeroDivisionErrorMsg
  else
    let dx : ℚ := (b - a) / n
    Except.ok <| (List.range n).foldl (fun (total : ℚ) (i : ℕ) =>
      let x0 : ℚ := a + (i : ℚ) * dx
      let x1 : ℚ := x0 + dx
      let xi : ℚ :=
        if self.mode = "left" then x0
        else if self.mode = "right" then x1
        else if self.mode = "mid" then (x0 + x1) / 2
        else u i x0 x1
      total + f xi * dx) 0

/-- The trapezoidal integrator (it stores no state). -/
structure TrapezoidalMethod where
deriving DecidableEq, Repr

/-- `TrapezoidalMethod.integrate(self, a, b, n, f)`:
`dx = (b - a) / n` (a `ZeroDivisionError` when `n = 0`),
`total = 0.5 * (f(a) + f(b))`, then `for i in range(1, n)`:
`total += f(a + i * dx)`; returns `total * dx`. -/
def TrapezoidalMethod.integrate (a b : ℚ) (n : ℕ) (f : ℚ → ℚ) :
    Except String ℚ :=
  if n = 0 then Except.error zeroDivisionErrorMsg
  else
    let dx : ℚ := (b - a) / n
    Except.ok <|
      ((List.range' 1 (n - 1)).foldl
        (fun (total : ℚ) (i : ℕ) => total + f (a + (i : ℚ) * dx))
        (1 / 2 * (f a + f b))) * dx

/-- The Simpson integrator (it stores no state). -/
structure SimpsonMethod where
deriving DecidableEq, Repr

/-- `SimpsonMethod.integrate(self, a, b, n, f)`: raises
`ValueError("For the Simpson method, n must be even")` when
`n % 2 != 0`; otherwise `dx = (b - a) / n` (a `ZeroDivisionError` when
`n = 0`), `total = f(a) + f(b)`, then `for i in range(1, n)`:
`coef = 4 if i % 2 != 0 else 2`, `total += coef * f(a + i * dx)`;
returns `total * dx / 3`. -/
def SimpsonMethod.integrate (a b : ℚ) (n : ℕ) (f : ℚ → ℚ) :
    Except String ℚ :=
  if n % 2 ≠ 0 then Except.error simpsonOddMsg
  else if n = 0 then Except.error zeroDivisionErrorMsg
  else
    let dx : ℚ := (b - a) / n
    Except.ok <|
      ((List.range' 1 (n - 1)).foldl
        (fun (total : ℚ) (i : ℕ) =>
          total + (if i % 2 ≠ 0 then (4 : ℚ) else 2) * f (a + (i : ℚ) * dx))
        (f a + f b)) * dx / 3

/-- Results of the integrators (`Except String ℚ`) have decidable
equality, so concrete runs can be checked by evaluation. -/
instance : DecidableEq (Except String ℚ) := fun x y =>
  match x, y with
  | Except.ok a, Except.ok b =>
      if h : a = b then Decidable.isTrue (by rw [h])
      else Decidable.isFalse (by simp [h])
  | Except.ok _, Except.error _ => Decidable.isFalse (by simp)
  | Except.error _, Except.ok _ => Decidable.isFalse (by simp)
  | Except.error e, Except.error e' =>
      if h : e = e' then Decidable.isTrue (by rw [h])
      else Decidable.isFalse (by simp [h])

/-! ### Bridge lemmas: the accumulator loops as finite sums -/

/-- Folding `total + g i` over a list equals the initial value plus the
sum of `g` over the list. -/
lemma foldl_add_eq_sum (g : ℕ → ℚ) (l : List ℕ) (init : ℚ) :
    l.foldl (fun total i => total + g i) init = init + (l.map g).sum := by
  induction l generalizing init with
  | nil => simp
  | cons x xs ih => simp [List.foldl_cons, ih, add_assoc]

/-- The sum of `g` over `List.range n` is the sum over `Finset.range n`. -/
lemma list_range_map_sum (g : ℕ → ℚ) (n : ℕ) :
    ((List.range n).map g).sum = ∑ i in Finset.range n, g i := by
  induction n with
  | zero => simp
  | succ m ih => simp [List.range_succ, Finset.sum_range_succ, ih]

/-- The sum of `g` over `List.range' 1 (n - 1)` (Python's
`range(1, n)`) is the sum over `Finset.Ico 1 n`. -/
lemma list_range'_map_sum (g : ℕ → ℚ) (n : ℕ) :
    ((List.range' 1 (n - 1)).map g).sum = ∑ i in Finset.Ico 1 n, g i := by
  induction n with
  | zero => simp
  | succ m ih =>
    cases m with
    | zero => simp
    | succ k =>
      have h1 : k + 1 + 1 - 1 = (k + 1 - 1) + 1 := by omega
      rw [h1, List.range'_concat,
        Finset.sum_Ico_succ_top (by omega : 1 ≤ k + 1)]
      simp only [List.map_append, List.sum_append, ih]
      have h2 : 1 + 1 * (k + 1 - 1) = k + 1 := by omega
      simp [h2, Nat.add_comm]

/-- Closed form of `RectangleMethod.integrate` for mode `"left"` and
`n ≠ 0`. -/
lemma rectangle_left_eq (u : ℕ → ℚ → ℚ → ℚ) (a b : ℚ) (n : ℕ) (hn : n ≠ 0)
    (f : ℚ → ℚ) :
    RectangleMethod.integrate ⟨"left"⟩ u a b n f =
      Except.ok (∑ i in Finset.range n,
        f (a + i * ((b - a) / n)) * ((b - a) / n)) := by
  simp only [RectangleMethod.integrate, if_neg hn]
  rw [foldl_add_eq_sum, list_range_map_sum]
  simp

/-- Closed form of `RectangleMethod.integrate` for mode `"right"` and
`n ≠ 0`. -/
lemma rectangle_right_eq (u : ℕ → ℚ → ℚ → ℚ) (a b : ℚ) (n : ℕ) (hn : n ≠ 0)
    (f : ℚ → ℚ) :
    RectangleMethod.integrate ⟨"right"⟩ u a b n f =
      Except.ok (∑ i in Finset.range n,
        f (a + i * ((b - a) / n) + (b - a) / n) * ((b - a) / n)) := by
  simp only [RectangleMethod.integrate, if_neg hn]
  rw [foldl_add_eq_sum, list_range_map_sum]
  simp

/-- Closed form of `RectangleMethod.integrate` for mode `"mid"` and
`n ≠ 0`. -/
lemma rectangle_mid_eq (u : ℕ → ℚ → ℚ → ℚ) (a b : ℚ) (n : ℕ) (hn : n ≠ 0)
    (f : ℚ → ℚ) :
    RectangleMethod.integrate ⟨"mid"⟩ u a b n f =
      Except.ok (∑ i in Finset.range n,
        f (((a + i * ((b - a) / n)) + (a + i * ((b - a) / n) + (b - a) / n)) / 2)
          * ((b - a) / n)) := by
  simp only [RectangleMethod.integrate, if_neg hn]
  rw [foldl_add_eq_sum, list_range_map_sum]
  simp

/-- Closed form of `TrapezoidalMethod.integrate` for `n ≠ 0`. -/
lemma trapezoidal_eq (a b : ℚ) (n : ℕ) (hn : n ≠ 0) (f : ℚ → ℚ) :
    TrapezoidalMethod.integrate a b n f =
      Except.ok ((1 / 2 * (f a + f b) +
        ∑ i in Finset.Ico 1 n, f (a + i * ((b - a) / n))) * ((b - a) / n)) := by
  simp only [TrapezoidalMethod.integrate, if_neg hn]
  rw [foldl_add_eq_sum, list_range'_map_sum]

/-- Closed form of `SimpsonMethod.integrate` for even `n ≠ 0`. -/
lemma simpson_eq (a b : ℚ) (n : ℕ) (hpar : n % 2 = 0) (hn : n ≠ 0)
    (f : ℚ → ℚ) :
    SimpsonMethod.integrate a b n f =
      Except.ok ((f a + f b +
        ∑ i in Finset.Ico 1 n, (if i % 2 ≠ 0 then (4 : ℚ) else 2) *
          f (a + i * ((b - a) / n))) * ((b - a) / n) / 3) := by
  simp only [SimpsonMethod.integrate, hpar, if_neg hn]
  rw [if_neg (by simp [hpar]), foldl_add_eq_sum, list_range'_map_sum]

/-! ### Reindexing lemmas for reversed bounds -/

/-- Reflecting the index over `Finset.Ico 1 n` by `i ↦ n - i` leaves a
sum unchanged. -/
lemma sum_Ico_reflected (n : ℕ) (g : ℕ → ℚ) :
    ∑ i in Finset.Ico 1 n, g (n - i) = ∑ i in Finset.Ico 1 n, g i := by
  rw [Finset.sum_Ico_eq_sum_range, Finset.sum_Ico_eq_sum_range]
  rw [← Finset.sum_range_reflect (fun j => g (1 + j)) (n - 1)]
  apply Finset.sum_congr rfl
  intro j hj
  have hj' : j < n - 1 := Finset.mem_range.mp hj
  congr 1
  omega

/-- Swapping the bounds sends the interior node `a + i·dx` to
`b + i·dx'` with `dx' = (a − b)/n`, and the interior sums agree. -/
lemma sum_points_reversed (a b : ℚ) (n : ℕ) (hn : n ≠ 0) (f : ℚ → ℚ) :
    ∑ i in Finset.Ico 1 n, f (b + i * ((a - b) / n))
    = ∑ i in Finset.Ico 1 n, f (a + i * ((b - a) / n)) := by
  rw [← sum_Ico_reflected n (fun i => f (a + i * ((b - a) / n)))]
  apply Finset.sum_congr rfl
  intro i hi
  have hi' : 1 ≤ i ∧ i < n := Finset.mem_Ico.mp hi
  have hne : (n : ℚ) ≠ 0 := Nat.cast_ne_zero.mpr hn
  have hcast : ((n - i : ℕ) : ℚ) = (n : ℚ) - (i : ℚ) := Nat.cast_sub hi'.2.le
  congr 1
  rw [hcast]
  field_simp
  ring

/-- The Simpson interior sum is invariant under swapping the bounds when
`n` is even: the reflection `i ↦ n − i` preserves the parity
coefficient. -/
lemma simpson_sum_reversed (a b : ℚ) (n : ℕ) (hn : n ≠ 0) (hpar : n % 2 = 0)
    (f : ℚ → ℚ) :
    ∑ i in Finset.Ico 1 n,
      (if i % 2 ≠ 0 then (4 : ℚ) else 2) * f (b + i * ((a - b) / n))
    = ∑ i in Finset.Ico 1 n,
      (if i % 2 ≠ 0 then (4 : ℚ) else 2) * f (a + i * ((b - a) / n)) := by
  rw [← sum_Ico_reflected n
    (fun i => (if i % 2 ≠ 0 then (4 : ℚ) else 2) * f (a + i * ((b - a) / n)))]
  apply Finset.sum_congr rfl
  intro i hi
  have hi' : 1 ≤ i ∧ i < n := Finset.mem_Ico.mp hi
  have hne : (n : ℚ) ≠ 0 := Nat.cast_ne_zero.mpr hn
  have hmod : (n - i) % 2 = i % 2 := by omega
  have hcast : ((n - i : ℕ) : ℚ) = (n : ℚ) - (i : ℚ) := Nat.cast_sub hi'.2.le
  rw [hmod, hcast]
  congr 2
  field_simp
  ring

/-- Swapping the bounds negates the midpoint-rule sum. -/
lemma sum_mid_reversed (a b : ℚ) (n : ℕ) (hn : n ≠ 0) (f : ℚ → ℚ) :
    ∑ i in Finset.range n,
      f (((b + i * ((a - b) / n)) + (b + i * ((a - b) / n) + (a - b) / n)) / 2)
        * ((a - b) / n)
    = - ∑ i in Finset.range n,
      f (((a + i * ((b - a) / n)) + (a + i * ((b - a) / n) + (b - a) / n)) / 2)
        * ((b - a) / n) := by
  rw [← Finset.sum_range_reflect (fun i =>
    f (((a + i * ((b - a) / n)) + (a + i * ((b - a) / n) + (b - a) / n)) / 2)
      * ((b - a) / n)) n, ← Finset.sum_neg_distrib]
  apply Finset.sum_congr rfl
  intro i hi
  have hi' : i < n := Finset.mem_range.mp hi
  have hne : (n : ℚ) ≠ 0 := Nat.cast_ne_zero.mpr hn
  have hcast : ((n - 1 - i : ℕ) : ℚ) = (n : ℚ) - 1 - (i : ℚ) := by
    rw [Nat.sub_sub, Nat.cast_sub (by omega)]
    push_cast
    ring
  rw [hcast]
  have harg : ((b + (i : ℚ) * ((a - b) / n)) +
        (b + (i : ℚ) * ((a - b) / n) + (a - b) / n)) / 2
      = ((a + ((n : ℚ) - 1 - i) * ((b - a) / n)) +
        (a + ((n : ℚ) - 1 - i) * ((b - a) / n) + (b - a) / n)) / 2 := by
    field_simp
    ring
  rw [harg]
  ring

/-- Swapping the bounds turns the right-endpoint sum into the negated
left-endpoint sum. -/
lemma sum_right_reversed (a b : ℚ) (n : ℕ) (hn : n ≠ 0) (f : ℚ → ℚ) :
    ∑ i in Finset.range n, f (b + i * ((a - b) / n) + (a - b) / n) * ((a - b) / n)
    = - ∑ i in Finset.range n, f (a + i * ((b - a) / n)) * ((b - a) / n) := by
  rw [← Finset.sum_range_reflect
    (fun i => f (a + i * ((b - a) / n)) * ((b - a) / n)) n,
    ← Finset.sum_neg_distrib]
  apply Finset.sum_congr rfl
  intro i hi
  have hi' : i < n := Finset.mem_range.mp hi
  have hne : (n : ℚ) ≠ 0 := Nat.cast_ne_zero.mpr hn
  have hcast : ((n - 1 - i : ℕ) : ℚ) = (n : ℚ) - 1 - (i : ℚ) := by
    rw [Nat.sub_sub, Nat.cast_sub (by omega)]
    push_cast
    ring
  rw [hcast]
  have harg : b + (i : ℚ) * ((a - b) / n) + (a - b) / n
      = a + ((n : ℚ) - 1 - i) * ((b - a) / n) := by
    field_simp
    ring
  rw [harg]
  ring

/-! ### Gauss sums for the linear-exactness property -/

/-- Sum of the first `n` naturals, cast to `ℚ`. -/
lemma sum_range_cast (n : ℕ) :
    ∑ i in Finset.range n, (i : ℚ) = n * ((n : ℚ) - 1) / 2 := by
  induction n with
  | zero => norm_num
  | succ m ih =>
    rw [Finset.sum_range_succ, ih]
    push_cast
    ring

/-- Sum of the interior indices `1, …, n − 1`, cast to `ℚ`. -/
lemma sum_Ico_cast (n : ℕ) (hn : n ≠ 0) :
    ∑ i in Finset.Ico 1 n, (i : ℚ) = n * ((n : ℚ) - 1) / 2 := by
  have h0 : 0 < n := Nat.pos_of_ne_zero hn
  have : ∑ i in Finset.range n, (i : ℚ)
      = ((0 : ℕ) : ℚ) + ∑ i in Finset.Ico 1 n, (i : ℚ) := by
    rw [Finset.range_eq_Ico, Finset.sum_eq_sum_Ico_succ_bot h0]
  rw [← sum_range_cast n, this]
  norm_num

/-! ### Claim theorems -/

/-- C1: For every mode in `{left, right, mid}`, every `n ≥ 1`, bounds
`a`, `b` and integrand `f`, `RectangleMethod(mode).integrate(a, b, n, f)`
returns the sum over `i = 0..n-1` of `f(xi) * dx`, where
`dx = (b - a) / n`, the `i`-th subinterval is
`[a + i*dx, a + (i+1)*dx]`, and `xi` is the left endpoint for mode
`left`, the right endpoint for mode `right`, and the midpoint
`(x0 + x1) / 2` for mode `mid`. -/
theorem rectangle_integrate_spec (u : ℕ → ℚ → ℚ → ℚ) (a b : ℚ) (n : ℕ)
    (hn : 1 ≤ n) (f : ℚ → ℚ) :
    (RectangleMethod.integrate ⟨"left"⟩ u a b n f =
      Except.ok (∑ i in Finset.range n,
        f (a + i * ((b - a) / n)) * ((b - a) / n))) ∧
    (RectangleMethod.integrate ⟨"right"⟩ u a b n f =
      Except.ok (∑ i in Finset.range n,
        f (a + ((i : ℚ) + 1) * ((b - a) / n)) * ((b - a) / n))) ∧
    (RectangleMethod.integrate ⟨"mid"⟩ u a b n f =
      Except.ok (∑ i in Finset.range n,
        f (((a + i * ((b - a) / n)) + (a + ((i : ℚ) + 1) * ((b - a) / n))) / 2)
          * ((b - a) / n))) := by
  have hn' : n ≠ 0 := by omega
  have hpt : ∀ i : ℕ, a + (i : ℚ) * ((b - a) / n) + (b - a) / n
      = a + ((i : ℚ) + 1) * ((b - a) / n) := by
    intro i; ring
  refine ⟨rectangle_left_eq u a b n hn' f, ?_, ?_⟩
  · rw [rectangle_right_eq u a b n hn' f]
    simp only [hpt]
  · rw [rectangle_mid_eq u a b n hn' f]
    simp only [hpt]

/-- Witness for C1 at mode `mid`, `a = 0`, `b = 2`, `n = 1`, `f = id`:
the single midpoint is `1`, so the result is `1 * 2 = 2`. -/
theorem rectangle_integrate_spec_witness :
    RectangleMethod.integrate ⟨"mid"⟩ (fun _ _ _ => 0) 0 2 1 (fun x => x) =
      Except.ok 2 := by
  have h := (rectangle_integrate_spec (fun _ _ _ => 0) 0 2 1 (by norm_num)
    (fun x => x)).2.2
  rw [h, Finset.sum_range_one]
  norm_num

/-- C2: For every `n ≥ 1`, bounds `a`, `b` and integrand `f`,
`TrapezoidalMethod.integrate(a, b, n, f)` returns
`(0.5*(f(a) + f(b)) + Σ_{i=1}^{n-1} f(a + i·dx)) * dx` with
`dx = (b - a) / n`. -/
theorem trapezoidal_integrate_spec (a b : ℚ) (n : ℕ) (hn : 1 ≤ n)
    (f : ℚ → ℚ) :
    TrapezoidalMethod.integrate a b n f =
      Except.ok ((1 / 2 * (f a + f b) +
        ∑ i in Finset.Ico 1 n, f (a + i * ((b - a) / n))) * ((b - a) / n)) :=
  trapezoidal_eq a b n (by omega) f

/-- Witness for C2 at `a = 0`, `b = 2`, `n = 1`, `f = 1` constant:
the interior sum is empty and the result is `(1/2 · 2) · 2 = 2`. -/
theorem trapezoidal_integrate_spec_witness :
    TrapezoidalMethod.integrate 0 2 1 (fun _ => (1 : ℚ)) = Except.ok 2 := by
  have h := trapezoidal_integrate_spec 0 2 1 (by norm_num) (fun _ => (1 : ℚ))
  rw [h]
  norm_num

/-- C3: For every even `n ≥ 2`, bounds `a`, `b` and integrand `f`,
`SimpsonMethod.integrate(a, b, n, f)` returns
`(f(a) + f(b) + Σ_{i=1}^{n-1} coef(i)·f(a + i·dx)) * dx / 3` with
`dx = (b - a) / n` and `coef(i) = 4` for odd `i`, `2` for even `i`. -/
theorem simpson_integrate_spec (a b : ℚ) (n : ℕ) (hn : 2 ≤ n)
    (hpar : n % 2 = 0) (f : ℚ → ℚ) :
    SimpsonMethod.integrate a b n f =
      Except.ok ((f a + f b + ∑ i in Finset.Ico 1 n,
        (if i % 2 = 1 then (4 : ℚ) else 2) * f (a + i * ((b - a) / n)))
          * ((b - a) / n) / 3) := by
  rw [simpson_eq a b n hpar (by omega) f]
  have hcoef : ∀ i : ℕ,
      (if i % 2 ≠ 0 then (4 : ℚ) else 2) = (if i % 2 = 1 then (4 : ℚ) else 2) := by
    intro i
    rcases Nat.mod_two_eq_zero_or_one i with h | h <;> simp [h]
  simp only [hcoef]

/-- Witness for C3 at `a = 0`, `b = 1`, `n = 2`, `f = 1` constant:
`(1 + 1 + 4·1) · (1/2) / 3 = 1`. -/
theorem simpson_integrate_spec_witness :
    SimpsonMethod.integrate 0 1 2 (fun _ => (1 : ℚ)) = Except.ok 1 := by
  have h := simpson_integrate_spec 0 1 2 (by norm_num) (by norm_num)
    (fun _ => (1 : ℚ))
  rw [h, Finset.sum_Ico_eq_sum_range]
  norm_num

/-- C4 counterexample: at `n = 3` the raised error does not carry the
message the claim quotes — the source raises
`ValueError("For the Simpson method, n must be even")`, not
`"n must be even for Simpson's rule"`. -/
theorem simpson_odd_message_counterexample :
    SimpsonMethod.integrate 0 1 3 (fun x => x) ≠
      Except.error ("n must be even for Simpson's rule") := by
  decide

/-- C4 (amended): for every odd `n`, any bounds and any integrand,
`SimpsonMethod.integrate` fails with the `ValueError` whose message is
`"For the Simpson method, n must be even"` and does not return a value,
while for `n = 4` the parity check passes and a value is returned. -/
theorem simpson_odd_raises (a b : ℚ) (n : ℕ) (hodd : n % 2 = 1)
    (f : ℚ → ℚ) :
    SimpsonMethod.integrate a b n f = Except.error simpsonOddMsg ∧
      ∃ v : ℚ, SimpsonMethod.integrate a b 4 f = Except.ok v := by
  constructor
  · simp [SimpsonMethod.integrate, hodd]
  · exact ⟨_, rfl⟩

/-- Witness for C4 at `n = 3`, `a = 0`, `b = 1`, `f = id`. -/
theorem simpson_odd_raises_witness :
    SimpsonMethod.integrate 0 1 3 (fun x => x) = Except.error simpsonOddMsg ∧
      ∃ v : ℚ, SimpsonMethod.integrate 0 1 4 (fun x => x) = Except.ok v :=
  simpson_odd_raises 0 1 3 (by norm_num) (fun x => x)

/-- C5: constructing `RectangleMethod(mode)` fails (the constructor's
assertion) exactly when the mode string is outside
`{left, right, mid, random}`; construction succeeds for every mode in
the set; and `integrate` itself never raises the construction error, so
the failure happens at construction time, not at call time. -/
theorem rectangle_init_validation (mode : String) :
    (mode ∉ rectangleModes →
      RectangleMethod.init mode = Except.error assertionErrorMsg) ∧
    (mode ∈ rectangleModes →
      RectangleMethod.init mode = Except.ok ⟨mode⟩) ∧
    (∀ (self : RectangleMethod) (u : ℕ → ℚ → ℚ → ℚ) (a b : ℚ) (n : ℕ)
      (f : ℚ → ℚ),
      RectangleMethod.integrate self u a b n f ≠
        Except.error assertionErrorMsg) := by
  refine ⟨fun h => ?_, fun h => ?_, fun self u a b n f => ?_⟩
  · simp [RectangleMethod.init, h]
  · simp [RectangleMethod.init, h]
  · by_cases hn : n = 0 <;>
      simp [RectangleMethod.integrate, hn, zeroDivisionErrorMsg,
        assertionErrorMsg]

/-- Witness for C5: mode `"invalid"` is rejected at construction and
mode `"left"` is accepted. -/
theorem rectangle_init_validation_witness :
    RectangleMethod.init ("invalid") = Except.error assertionErrorMsg ∧
      RectangleMethod.init ("left") = Except.ok ⟨"left"⟩ :=
  ⟨(rectangle_init_validation ("invalid")).1 (by decide),
   (rectangle_init_validation ("left")).2.1 (by decide)⟩

/-- C6 counterexample: for mode `left` with `f = id`, `a = 0`, `b = 1`,
`n = 1`, integrate(0,1) returns `0` while `-integrate(1,0)` returns `1`,
so reversing the bounds does not negate the left-rectangle result. -/
theorem reversed_bounds_counterexample :
    RectangleMethod.integrate ⟨"left"⟩ (fun _ _ _ => 0) 0 1 1 (fun x => x) ≠
      Except.map Neg.neg
        (RectangleMethod.integrate ⟨"left"⟩ (fun _ _ _ => 0) 1 0 1 (fun x => x)) := by
  rw [rectangle_left_eq (fun _ _ _ => 0) 0 1 1 (by norm_num) (fun x => x),
    rectangle_left_eq (fun _ _ _ => 0) 1 0 1 (by norm_num) (fun x => x)]
  simp only [Except.map, Finset.sum_range_one, ne_eq, Except.ok.injEq]
  norm_num

/-- C6 (amended): for every valid `n ≥ 1`, all bounds and every
integrand, reversing the bounds negates the result of the `mid`
rectangle mode, of `TrapezoidalMethod.integrate`, and (for even `n`) of
`SimpsonMethod.integrate`; the `left` and `right` rectangle modes
instead negate each other under bound reversal:
`left(a,b) = -right(b,a)` and `right(a,b) = -left(b,a)`. -/
theorem reversed_bounds_negate (u : ℕ → ℚ → ℚ → ℚ) (a b : ℚ) (n : ℕ)
    (hn : 1 ≤ n) (f : ℚ → ℚ) :
    (RectangleMethod.integrate ⟨"mid"⟩ u a b n f =
      Except.map Neg.neg (RectangleMethod.integrate ⟨"mid"⟩ u b a n f)) ∧
    (TrapezoidalMethod.integrate a b n f =
      Except.map Neg.neg (TrapezoidalMethod.integrate b a n f)) ∧
    (n % 2 = 0 → SimpsonMethod.integrate a b n f =
      Except.map Neg.neg (SimpsonMethod.integrate b a n f)) ∧
    (RectangleMethod.integrate ⟨"left"⟩ u a b n f =
      Except.map Neg.neg (RectangleMethod.integrate ⟨"right"⟩ u b a n f)) ∧
    (RectangleMethod.integrate ⟨"right"⟩ u a b n f =
      Except.map Neg.neg (RectangleMethod.integrate ⟨"left"⟩ u b a n f)) := by
  have hn' : n ≠ 0 := by omega
  refine ⟨?_, ?_, fun hpar => ?_, ?_, ?_⟩
  · rw [rectangle_mid_eq u a b n hn' f, rectangle_mid_eq u b a n hn' f]
    simp only [Except.map, Except.ok.injEq]
    rw [sum_mid_reversed a b n hn' f, neg_neg]
  · rw [trapezoidal_eq a b n hn' f, trapezoidal_eq b a n hn' f]
    simp only [Except.map, Except.ok.injEq]
    rw [sum_points_reversed a b n hn' f]
    ring
  · rw [simpson_eq a b n hpar hn' f, simpson_eq b a n hpar hn' f]
    simp only [Except.map, Except.ok.injEq]
    rw [simpson_sum_reversed a b n hn' hpar f]
    ring
  · rw [rectangle_left_eq u a b n hn' f, rectangle_right_eq u b a n hn' f]
    simp only [Except.map, Except.ok.injEq]
    rw [sum_right_reversed a b n hn' f, neg_neg]
  · rw [rectangle_right_eq u a b n hn' f, rectangle_left_eq u b a n hn' f]
    simp only [Except.map, Except.ok.injEq]
    exact sum_right_reversed b a n hn' f

/-- Witness for C6 (amended) at `a = 0`, `b = 1`, `n = 2`, `f = id`:
the trapezoidal and Simpson parts at a concrete even `n`. -/
theorem reversed_bounds_negate_witness :
    (TrapezoidalMethod.integrate 0 1 2 (fun x => x) =
      Except.map Neg.neg (TrapezoidalMethod.integrate 1 0 2 (fun x => x))) ∧
    (SimpsonMethod.integrate 0 1 2 (fun x => x) =
      Except.map Neg.neg (SimpsonMethod.integrate 1 0 2 (fun x => x))) :=
  ⟨(reversed_bounds_negate (fun _ _ _ => 0) 0 1 2 (by norm_num)
      (fun x => x)).2.1,
   (reversed_bounds_negate (fun _ _ _ => 0) 0 1 2 (by norm_num)
      (fun x => x)).2.2.1 (by norm_num)⟩

/-- C7: for `n = 0` every method — the rectangle method under any
stored mode, the trapezoidal method and the Simpson method — fails with
the division-by-zero fault from the `dx = (b - a) / n` computation, and
none returns a value. -/
theorem n_zero_division_fault (self : RectangleMethod) (u : ℕ → ℚ → ℚ → ℚ)
    (a b : ℚ) (f : ℚ → ℚ) :
    RectangleMethod.integrate self u a b 0 f =
      Except.error zeroDivisionErrorMsg ∧
    TrapezoidalMethod.integrate a b 0 f = Except.error zeroDivisionErrorMsg ∧
    SimpsonMethod.integrate a b 0 f = Except.error zeroDivisionErrorMsg :=
  ⟨rfl, rfl, rfl⟩

/-- C8: the trapezoidal rule is exact for every linear integrand
`f(x) = p·x + q` and every `n ≥ 1`, returning the exact integral
`p·(b² − a²)/2 + q·(b − a)`; in particular with `f(x) = 2x + 1`,
`a = 0`, `b = 2`, `n = 4` it returns exactly `6`. -/
theorem trapezoidal_exact_linear (p q a b : ℚ) (n : ℕ) (hn : 1 ≤ n) :
    TrapezoidalMethod.integrate a b n (fun x => p * x + q) =
      Except.ok (p * (b ^ 2 - a ^ 2) / 2 + q * (b - a)) ∧
    TrapezoidalMethod.integrate 0 2 4 (fun x => 2 * x + 1) = Except.ok 6 := by
  have hn' : n ≠ 0 := by omega
  have hne : (n : ℚ) ≠ 0 := Nat.cast_ne_zero.mpr hn'
  constructor
  · rw [trapezoidal_eq a b n hn']
    simp only [Except.ok.injEq]
    have step : ∀ i ∈ Finset.Ico 1 n,
        p * (a + (i : ℚ) * ((b - a) / n)) + q
          = (p * a + q) + (p * ((b - a) / n)) * (i : ℚ) := by
      intro i _; ring
    rw [Finset.sum_congr rfl step, Finset.sum_add_distrib, Finset.sum_const,
      ← Finset.mul_sum, sum_Ico_cast n hn', Nat.card_Ico, nsmul_eq_mul,
      Nat.cast_sub (by omega : 1 ≤ n)]
    push_cast
    field_simp
    ring
  · rw [trapezoidal_eq 0 2 4 (by norm_num) (fun x => 2 * x + 1),
      Finset.sum_Ico_eq_sum_range]
    norm_num [Finset.sum_range_succ]

/-- Witness for C8: the spec's own instance `f(x) = 2x + 1`, `a = 0`,
`b = 2`, `n = 4`, with result exactly `6`. -/
theorem trapezoidal_exact_linear_witness :
    TrapezoidalMethod.integrate 0 2 4 (fun x => 2 * x + 1) = Except.ok 6 :=
  (trapezoidal_exact_linear 2 1 0 2 4 (by norm_num)).2

/-- C9: for odd `n` the Simpson method raises its parity error and the
integrand is never evaluated: the outcome is the error value and is
independent of the supplied integrand. -/
theorem simpson_odd_no_work (a b : ℚ) (n : ℕ) (hodd : n % 2 = 1)
    (f g : ℚ → ℚ) :
    SimpsonMethod.integrate a b n f = Except.error simpsonOddMsg ∧
    SimpsonMethod.integrate a b n f = SimpsonMethod.integrate a b n g := by
  have h1 : SimpsonMethod.integrate a b n f = Except.error simpsonOddMsg := by
    simp [SimpsonMethod.integrate, hodd]
  have h2 : SimpsonMethod.integrate a b n g = Except.error simpsonOddMsg := by
    simp [SimpsonMethod.integrate, hodd]
  exact ⟨h1, h1.trans h2.symm⟩

/-- Witness for C9 at `n = 3`, `a = 0`, `b = 1`, `f = id`, `g = 0`. -/
theorem simpson_odd_no_work_witness :
    SimpsonMethod.integrate 0 1 3 (fun x => x) = Except.error simpsonOddMsg ∧
    SimpsonMethod.integrate 0 1 3 (fun x => x) =
      SimpsonMethod.integrate 0 1 3 (fun _ => (0 : ℚ)) :=
  simpson_odd_no_work 0 1 3 (by norm_num) (fun x => x) (fun _ => (0 : ℚ))

/-- C10: with equal bounds `a = b` and valid `n` (`n ≥ 1`, even for
Simpson), every method returns exactly `0`: `dx = 0` annihilates every
contribution and the final scaling. -/
theorem equal_bounds_zero (u : ℕ → ℚ → ℚ → ℚ) (a : ℚ) (n : ℕ) (hn : 1 ≤ n)
    (f : ℚ → ℚ) :
    RectangleMethod.integrate ⟨"left"⟩ u a a n f = Except.ok 0 ∧
    RectangleMethod.integrate ⟨"right"⟩ u a a n f = Except.ok 0 ∧
    RectangleMethod.integrate ⟨"mid"⟩ u a a n f = Except.ok 0 ∧
    TrapezoidalMethod.integrate a a n f = Except.ok 0 ∧
    (n % 2 = 0 → SimpsonMethod.integrate a a n f = Except.ok 0) := by
  have hn' : n ≠ 0 := by omega
  refine ⟨?_, ?_, ?_, ?_, fun hpar => ?_⟩
  · rw [rectangle_left_eq u a a n hn' f]; simp
  · rw [rectangle_right_eq u a a n hn' f]; simp
  · rw [rectangle_mid_eq u a a n hn' f]; simp
  · rw [trapezoidal_eq a a n hn' f]; simp
  · rw [simpson_eq a a n hpar hn' f]; simp

/-- Witness for C10 at `a = 1`, `n = 2` (even), `f = id`. -/
theorem equal_bounds_zero_witness :
    RectangleMethod.integrate ⟨"left"⟩ (fun _ _ _ => 0) 1 1 2 (fun x => x) =
      Except.ok 0 ∧
    SimpsonMethod.integrate 1 1 2 (fun x => x) = Except.ok 0 :=
  ⟨(equal_bounds_zero (fun _ _ _ => 0) 1 2 (by norm_num) (fun x => x)).1,
   (equal_bounds_zero (fun _ _ _ => 0) 1 2 (by norm_num)
      (fun x => x)).2.2.2.2 (by norm_num)⟩
